import Mathlib

/-!
Verification of the WebSocket++ Boost.Asio compatibility facade
(`src/vme/src/mplex/websocketpp/common/asio.hpp`, Boost >= 1.66 branch).

The file embeds, in Lean:
  * the `resolver::iterator` wrapper class: its fields `results_`
    (a shared_ptr to a results snapshot, modelled as an optional identity
    into an explicit snapshot store), `current_` (the cursor, modelled as a
    position index into the snapshot; the past-the-end position is the
    snapshot's length) and `is_end_`;
  * its operations: default construction, construction from a results
    range, pre/post increment, equality and inequality;
  * the `steady_timer` wrapper's derived `expires_from_now` query;
  * the `io_service` wrapper's `post` and `reset` delegation;
  * the completion adapter lambda inside `resolver::async_resolve`.

Times are modelled as integers (chrono durations/time points on the
monotonic clock), resolved entries and handlers as abstract tokens.
-/

namespace Websocketpp

/-- Resolved-endpoint entry (basic_resolver_entry); abstract token. -/
abbrev Entry := Nat

/-- Handler token for posted work and completion handlers. -/
abbrev Handler := Nat

/-- Error code value; 0 means success, matching error_code truthiness. -/
abbrev error_code := Nat

/-- Snapshot store: the heap of results_type objects allocated by
make_shared in the iterator constructor.  The index of a snapshot in the
store is its identity (the shared_ptr address); two iterators share a
snapshot iff they hold the same index. -/
abbrev Store := List (List Entry)

/-- Length of the snapshot referenced by an optional identity (the position
of the past-the-end cursor of that results range).  A null shared_ptr
references no snapshot. -/
def Store.snapLen (st : Store) : Option Nat → Nat
  | none => 0
  | some k => (st.getD k []).length

namespace resolver

/-- State of resolver::iterator: field for field from the source class.
results_ is the shared_ptr (none = null), current_ the cursor position
inside the referenced snapshot, is_end_ the end flag. -/
structure iterator where
  results_ : Option Nat
  current_ : Nat
  is_end_ : Bool
  deriving Repr, DecidableEq

/-- Default constructor: results_(), current_(), is_end_(true). -/
def iterator.default : iterator :=
  { results_ := none, current_ := 0, is_end_ := true }

/-- Constructor from a results range: allocates a fresh shared snapshot
(make_shared), sets current_ to begin (position 0) and is_end_ to
(current_ == results_->end()), i.e. to whether the range is empty.
Returns the extended store together with the new iterator. -/
def iterator.fromResults (st : Store) (entries : List Entry) :
    Store × iterator :=
  (st ++ [entries],
   { results_ := some st.length
     current_ := 0
     is_end_ := decide (0 = entries.length) })

/-- Pre-increment: if not at end, advance current_ and set is_end_ when
current_ reaches results_->end().  At end the body is skipped and *this is
returned unchanged. -/
def iterator.preInc (st : Store) (it : iterator) : iterator :=
  if it.is_end_ then it
  else
    let c := it.current_ + 1
    { it with
      current_ := c
      is_end_ := decide (c = Store.snapLen st it.results_) }

/-- Post-increment: iterator tmp(*this); ++(*this); return tmp.  The first
component is the new state of *this, the second the returned copy. -/
def iterator.postInc (st : Store) (it : iterator) : iterator × iterator :=
  (iterator.preInc st it, it)

/-- Equality operator, clause for clause from the source: both end => true;
differing end flags => false; same results_ shared_ptr => compare cursors;
different results objects => false. -/
def iterator.opEq (a b : iterator) : Bool :=
  if a.is_end_ && b.is_end_ then true
  else if a.is_end_ != b.is_end_ then false
  else if a.results_ == b.results_ then a.current_ == b.current_
  else false

/-- Inequality operator: return !(*this == other). -/
def iterator.opNe (a b : iterator) : Bool :=
  !(iterator.opEq a b)

/-- Well-formedness of an iterator state over a store: the invariant
maintained by every constructor and by increment.  A null results_ forces
the end state (default construction); a non-null results_ references a
live snapshot, the cursor is within [0, length], and is_end_ holds exactly
at the past-the-end position. -/
def iterator.wf (st : Store) (it : iterator) : Bool :=
  match it.results_ with
  | none => it.is_end_
  | some k =>
      decide (k < st.length) &&
      decide (it.current_ ≤ Store.snapLen st (some k)) &&
      (it.is_end_ == decide (it.current_ = Store.snapLen st (some k)))

/-- Dereference: operator* reads the entry under the cursor of the shared
snapshot (meaningful only when not at end). -/
def iterator.deref (st : Store) (it : iterator) : Option Entry :=
  match it.results_ with
  | none => none
  | some k => (st.getD k []).get? it.current_

end resolver

/-- Two iterator copies side by side; advancing the first leaves the second
component untouched, as operator++ writes only the fields of the object it
is invoked on and never writes through results_. -/
def advanceFst (st : Store) (p : resolver.iterator × resolver.iterator) :
    resolver.iterator × resolver.iterator :=
  (resolver.iterator.preInc st p.1, p.2)

/-- Completion adapter lambda inside resolver::async_resolve.  Given the
(ec, results) delivered by the underlying async_resolve completion — which
the underlying library invokes exactly once per operation, on the loop's
execution context — it builds `iterator it = ec ? iterator() :
iterator(std::move(results));` and performs the single call handler(ec, it).
The second component lists the handler invocations made by one run of the
lambda. -/
def async_resolve_complete (st : Store) (ec : error_code)
    (results : List Entry) : Store × List (error_code × resolver.iterator) :=
  if ec ≠ 0 then (st, [(ec, resolver.iterator.default)])
  else
    let p := resolver.iterator.fromResults st results
    (p.1, [(ec, p.2)])

/-- State of the wrapped steady timer: the stored absolute expiry on the
monotonic clock. -/
structure steady_timer where
  expiry_ : Int
  deriving Repr, DecidableEq

/-- Accessor expiry(): the stored absolute expiry. -/
def steady_timer.expiry (t : steady_timer) : Int := t.expiry_

/-- Method expires_from_now(): return this->expiry() - clock_type::now().
The current clock reading is an input; the method is const, so the timer
state is returned unchanged alongside the computed duration. -/
def steady_timer.expires_from_now (t : steady_timer) (now : Int) :
    Int × steady_timer :=
  (t.expiry - now, t)

/-- State of the event loop visible to the wrapper: the FIFO queue of
posted handlers and the stopped flag. -/
structure io_context where
  queue : List Handler
  stopped : Bool
  deriving Repr, DecidableEq

/-- Modelled from the spec: the underlying library's free function
post(context, handler) (not part of this repository) schedules the handler
for later execution on the loop, FIFO per loop. -/
def asio_post (ctx : io_context) (h : Handler) : io_context :=
  { ctx with queue := ctx.queue ++ [h] }

/-- Modelled from the spec: io_context::restart() (not part of this
repository) restarts a stopped loop so it can run again. -/
def io_context.restart (ctx : io_context) : io_context :=
  { ctx with stopped := false }

/-- Wrapper method io_service::post: boost::asio::post(*this, handler). -/
def io_service.post (ctx : io_context) (h : Handler) : io_context :=
  asio_post ctx h

/-- Wrapper method io_service::reset: this->restart(). -/
def io_service.reset (ctx : io_context) : io_context :=
  io_context.restart ctx

/-- Equality is reflexive for the wrapper operator. -/
theorem iterator_opEq_refl (a : resolver.iterator) :
    resolver.iterator.opEq a a = true := by
  unfold resolver.iterator.opEq
  cases a.is_end_ <;> simp

/-- Pre-increment never changes which snapshot the iterator references. -/
theorem preInc_results (st : Store) (it : resolver.iterator) :
    (resolver.iterator.preInc st it).results_ = it.results_ := by
  unfold resolver.iterator.preInc
  split <;> rfl

/-- Default construction yields a well-formed state over any store. -/
theorem wf_default (st : Store) :
    resolver.iterator.wf st resolver.iterator.default = true := rfl

/-- Pre-increment preserves well-formedness: together with wf_default and
wf_fromResults this makes wf an invariant of every state the class's API
can produce. -/
theorem wf_preInc (st : Store) (it : resolver.iterator)
    (h : resolver.iterator.wf st it = true) :
    resolver.iterator.wf st (resolver.iterator.preInc st it) = true := by
  obtain ⟨r, c, e⟩ := it
  cases e with
  | true => simpa [resolver.iterator.preInc] using h
  | false =>
    cases r with
    | none => simp [resolver.iterator.wf] at h
    | some k =>
      simp [resolver.iterator.wf, resolver.iterator.preInc] at h ⊢
      omega

/-- Reference to no snapshot forces the end state on well-formed states. -/
theorem wf_none_end (st : Store) (x : resolver.iterator)
    (hx : resolver.iterator.wf st x = true) (hr : x.results_ = none) :
    x.is_end_ = true := by
  unfold resolver.iterator.wf at hx
  rw [hr] at hx
  exact hx

/-- On well-formed states the end flag holds exactly at the past-the-end
position of the referenced snapshot. -/
theorem wf_end_current (st : Store) (x : resolver.iterator) (k : Nat)
    (hx : resolver.iterator.wf st x = true) (hr : x.results_ = some k) :
    (x.is_end_ = true ↔ x.current_ = Store.snapLen st (some k)) := by
  unfold resolver.iterator.wf at hx
  rw [hr] at hx
  simp only [Bool.and_eq_true, decide_eq_true_eq, beq_iff_eq] at hx
  rw [hx.2]
  simp

/-- An end-state iterator and a mid-range iterator over the same snapshot
never share a cursor position. -/
theorem end_mixed_pos_ne (st : Store) (x y : resolver.iterator)
    (hx : resolver.iterator.wf st x = true)
    (hy : resolver.iterator.wf st y = true)
    (hxe : x.is_end_ = true) (hye : y.is_end_ = false)
    (hr : x.results_ = y.results_) : x.current_ ≠ y.current_ := by
  cases hyr : y.results_ with
  | none =>
    have hcontra := wf_none_end st y hy hyr
    rw [hye] at hcontra
    exact absurd hcontra (by simp)
  | some k =>
    have hxr : x.results_ = some k := by rw [hr, hyr]
    have h1 := (wf_end_current st x k hx hxr).mp hxe
    have h2 : ¬ (y.current_ = Store.snapLen st (some k)) := by
      intro hc
      have hcontra := (wf_end_current st y k hy hyr).mpr hc
      rw [hye] at hcontra
      exact absurd hcontra (by simp)
    intro hc
    exact h2 (by omega)

/-- C1: on well-formed states, operator== returns true iff both iterators
are at end, or both reference the same underlying snapshot (same shared
results object) at the same cursor position. -/
theorem c1_operator_eq_iff (st : Store) (a b : resolver.iterator)
    (ha : resolver.iterator.wf st a = true)
    (hb : resolver.iterator.wf st b = true) :
    resolver.iterator.opEq a b = true ↔
      ((a.is_end_ = true ∧ b.is_end_ = true) ∨
       (a.results_ = b.results_ ∧ a.current_ = b.current_)) := by
  constructor
  · intro h
    unfold resolver.iterator.opEq at h
    cases hae : a.is_end_ with
    | true =>
      cases hbe : b.is_end_ with
      | true => exact Or.inl ⟨rfl, rfl⟩
      | false => rw [hae, hbe] at h; simp at h
    | false =>
      cases hbe : b.is_end_ with
      | true => rw [hae, hbe] at h; simp at h
      | false =>
        rw [hae, hbe] at h
        simp at h
        exact Or.inr h
  · intro h
    rcases h with ⟨hae, hbe⟩ | ⟨hr, hc⟩
    · unfold resolver.iterator.opEq
      rw [hae, hbe]
      simp
    · unfold resolver.iterator.opEq
      cases hae : a.is_end_ with
      | true =>
        cases hbe : b.is_end_ with
        | true => simp
        | false => exact absurd hc (end_mixed_pos_ne st a b ha hb hae hbe hr)
      | false =>
        cases hbe : b.is_end_ with
        | true =>
          exact absurd hc.symm (end_mixed_pos_ne st b a hb ha hbe hae hr.symm)
        | false => simp [hr, hc]

theorem c1_operator_eq_iff_witness :
    resolver.iterator.opEq ⟨some 0, 1, false⟩ ⟨some 0, 1, false⟩ = true ↔
      (((false : Bool) = true ∧ (false : Bool) = true) ∨
       ((some 0 : Option Nat) = some 0 ∧ (1 : Nat) = 1)) :=
  c1_operator_eq_iff [[1, 2]] ⟨some 0, 1, false⟩ ⟨some 0, 1, false⟩
    (by decide) (by decide)

/-- C2: every default-constructed resolver iterator is an end sentinel:
it compares equal to iterator() and its end flag is set. -/
theorem c2_default_iterator_is_end :
    resolver.iterator.opEq resolver.iterator.default
      resolver.iterator.default = true ∧
    resolver.iterator.default.is_end_ = true := by
  exact ⟨rfl, rfl⟩

/-- C5: expires_from_now() returns the stored absolute expiry minus the
current monotonic clock reading, negative whenever the expiry is in the
past, and leaves the timer state unchanged. -/
theorem c5_expires_from_now (t : steady_timer) (now : Int) :
    (t.expires_from_now now).1 = t.expiry_ - now ∧
    (t.expires_from_now now).2 = t ∧
    (t.expiry_ < now → (t.expires_from_now now).1 < 0) := by
  refine ⟨rfl, rfl, fun hpast => ?_⟩
  simp only [steady_timer.expires_from_now, steady_timer.expiry]
  omega

theorem c5_expires_from_now_witness :
    ((⟨3⟩ : steady_timer).expires_from_now 5).1 = 3 - 5 ∧
    ((⟨3⟩ : steady_timer).expires_from_now 5).2 = ⟨3⟩ ∧
    ((⟨3⟩ : steady_timer).expires_from_now 5).1 < 0 :=
  ⟨(c5_expires_from_now ⟨3⟩ 5).1, (c5_expires_from_now ⟨3⟩ 5).2.1,
   (c5_expires_from_now ⟨3⟩ 5).2.2 (by decide)⟩

/-- C7: incrementing an iterator already at end is idempotent: both
pre-increment and post-increment leave it in the end state unchanged, and
post-increment returns it unchanged as well. -/
theorem c7_increment_at_end_idempotent (st : Store) (it : resolver.iterator)
    (h : it.is_end_ = true) :
    resolver.iterator.preInc st it = it ∧
    (resolver.iterator.postInc st it).1 = it ∧
    (resolver.iterator.postInc st it).2 = it ∧
    (resolver.iterator.preInc st it).is_end_ = true := by
  have hp : resolver.iterator.preInc st it = it := by
    unfold resolver.iterator.preInc
    simp [h]
  exact ⟨hp, hp, rfl, by rw [hp]; exact h⟩

theorem c7_increment_at_end_idempotent_witness :
    resolver.iterator.preInc [] resolver.iterator.default =
      resolver.iterator.default ∧
    (resolver.iterator.postInc [] resolver.iterator.default).1 =
      resolver.iterator.default ∧
    (resolver.iterator.postInc [] resolver.iterator.default).2 =
      resolver.iterator.default ∧
    (resolver.iterator.preInc [] resolver.iterator.default).is_end_ = true :=
  c7_increment_at_end_idempotent [] resolver.iterator.default rfl

/-- C8: the io_service wrapper is pure delegation: post(handler) performs
exactly the free-function post of the handler on this context, and reset()
performs exactly restart(), with no additional effect. -/
theorem c8_io_service_delegation (ctx : io_context) (h : Handler) :
    io_service.post ctx h = asio_post ctx h ∧
    io_service.reset ctx = io_context.restart ctx ∧
    io_service.post ctx h = { ctx with queue := ctx.queue ++ [h] } ∧
    io_service.reset ctx = { ctx with stopped := false } :=
  ⟨rfl, rfl, rfl, rfl⟩

/-- C9: for an iterator not at end, post-increment returns a copy equal
(under operator==) to the state before the increment, and leaves the
iterator itself in the state pre-increment would produce. -/
theorem c9_post_increment (st : Store) (it : resolver.iterator)
    (_h : it.is_end_ = false) :
    resolver.iterator.opEq (resolver.iterator.postInc st it).2 it = true ∧
    (resolver.iterator.postInc st it).2 = it ∧
    (resolver.iterator.postInc st it).1 = resolver.iterator.preInc st it :=
  ⟨iterator_opEq_refl it, rfl, rfl⟩

theorem c9_post_increment_witness :
    resolver.iterator.opEq
      (resolver.iterator.postInc [[1, 2]] ⟨some 0, 0, false⟩).2
      ⟨some 0, 0, false⟩ = true ∧
    (resolver.iterator.postInc [[1, 2]] ⟨some 0, 0, false⟩).2 =
      ⟨some 0, 0, false⟩ ∧
    (resolver.iterator.postInc [[1, 2]] ⟨some 0, 0, false⟩).1 =
      resolver.iterator.preInc [[1, 2]] ⟨some 0, 0, false⟩ :=
  c9_post_increment [[1, 2]] ⟨some 0, 0, false⟩ rfl

/-- Length of the freshly allocated snapshot in the extended store. -/
theorem snapLen_fromResults (st : Store) (entries : List Entry) :
    Store.snapLen (st ++ [entries]) (some st.length) = entries.length := by
  unfold Store.snapLen
  induction st with
  | nil => rfl
  | cons x t ih => simp

/-- Construction from a results range yields a well-formed state over the
extended store. -/
theorem wf_fromResults (st : Store) (entries : List Entry) :
    resolver.iterator.wf (resolver.iterator.fromResults st entries).1
      (resolver.iterator.fromResults st entries).2 = true := by
  have hL := snapLen_fromResults st entries
  simp [resolver.iterator.fromResults, resolver.iterator.wf, hL]

/-- State after m pre-increments of a begin iterator over a snapshot of
length L: cursor at position m with the end flag exactly when m = L. -/
theorem preInc_iterate (st : Store) (k L m : Nat)
    (hL : Store.snapLen st (some k) = L) (hm : m ≤ L) :
    (resolver.iterator.preInc st)^[m]
        ⟨some k, 0, decide (0 = L)⟩ = ⟨some k, m, decide (m = L)⟩ := by
  induction m with
  | zero => rfl
  | succ n ih =>
    have hn : n ≤ L := Nat.le_of_succ_le hm
    have hlt : n < L := hm
    rw [Function.iterate_succ_apply', ih hn]
    unfold resolver.iterator.preInc
    have hne : decide (n = L) = false := by simp [Nat.ne_of_lt hlt]
    simp only [hne, Bool.false_eq_true, if_false, hL]

/-- C3: an iterator constructed from a resolution result range with N
entries reaches the end state after exactly N pre-increments: at end after
N and not at end after any m < N (for N = 0 it is at end immediately). -/
theorem c3_end_after_exactly_n (st : Store) (entries : List Entry) :
    ((resolver.iterator.preInc
        (resolver.iterator.fromResults st entries).1)^[entries.length]
        (resolver.iterator.fromResults st entries).2).is_end_ = true ∧
    ∀ m, m < entries.length →
      ((resolver.iterator.preInc
          (resolver.iterator.fromResults st entries).1)^[m]
          (resolver.iterator.fromResults st entries).2).is_end_ = false := by
  have hfst : (resolver.iterator.fromResults st entries).1 =
      st ++ [entries] := rfl
  have hsnd : (resolver.iterator.fromResults st entries).2 =
      ⟨some st.length, 0, decide (0 = entries.length)⟩ := rfl
  constructor
  · rw [hfst, hsnd, preInc_iterate (st ++ [entries]) st.length entries.length
        entries.length (snapLen_fromResults st entries) (Nat.le_refl _)]
    simp
  · intro m hm
    rw [hfst, hsnd, preInc_iterate (st ++ [entries]) st.length entries.length
        m (snapLen_fromResults st entries) (Nat.le_of_lt hm)]
    simp [Nat.ne_of_lt hm]

theorem c3_end_after_exactly_n_witness :
    ((resolver.iterator.preInc
        (resolver.iterator.fromResults [] [5, 7]).1)^[2]
        (resolver.iterator.fromResults [] [5, 7]).2).is_end_ = true ∧
    ((resolver.iterator.preInc
        (resolver.iterator.fromResults [] [5, 7]).1)^[1]
        (resolver.iterator.fromResults [] [5, 7]).2).is_end_ = false :=
  ⟨(c3_end_after_exactly_n [] [5, 7]).1,
   (c3_end_after_exactly_n [] [5, 7]).2 1 (by decide)⟩

/-- Advancing the first copy m times moves only the first component. -/
theorem advanceFst_iterate (st : Store) (a b : resolver.iterator) (m : Nat) :
    (advanceFst st)^[m] (a, b) = ((resolver.iterator.preInc st)^[m] a, b) := by
  induction m generalizing a with
  | zero => rfl
  | succ n ih =>
    rw [Function.iterate_succ_apply, Function.iterate_succ_apply]
    exact ih (resolver.iterator.preInc st a)

/-- Iterated pre-increment keeps the snapshot reference fixed. -/
theorem preInc_iterate_results (st : Store) (it : resolver.iterator)
    (m : Nat) :
    ((resolver.iterator.preInc st)^[m] it).results_ = it.results_ := by
  induction m generalizing it with
  | zero => rfl
  | succ n ih =>
    rw [Function.iterate_succ_apply, ih (resolver.iterator.preInc st it),
      preInc_results]

/-- C6: for two copies of the same iterator, incrementing one copy (any
number of times) leaves the other copy's position and end state unchanged;
the incremented copy advances exactly as the lone iterator would, and still
references the same shared snapshot. -/
theorem c6_independent_copies (st : Store) (it : resolver.iterator)
    (m : Nat) :
    ((advanceFst st)^[m] (it, it)).2 = it ∧
    ((advanceFst st)^[m] (it, it)).2.current_ = it.current_ ∧
    ((advanceFst st)^[m] (it, it)).2.is_end_ = it.is_end_ ∧
    ((advanceFst st)^[m] (it, it)).1 =
      (resolver.iterator.preInc st)^[m] it ∧
    ((advanceFst st)^[m] (it, it)).1.results_ = it.results_ := by
  have h := advanceFst_iterate st it it m
  refine ⟨?_, ?_, ?_, ?_, ?_⟩ <;> rw [h]
  · exact preInc_iterate_results st it m

/-- C4: one run of the async_resolve completion adapter calls the handler
exactly once; the handler receives the delivered error code together with
the default (end) iterator when the error code is non-zero, and an iterator
wrapping the resolved result range otherwise. -/
theorem c4_async_resolve_handler (st : Store) (ec : error_code)
    (results : List Entry) :
    (async_resolve_complete st ec results).2.length = 1 ∧
    ∀ q it2, (async_resolve_complete st ec results).2 = [(q, it2)] →
      q = ec ∧
      (ec ≠ 0 → it2 = resolver.iterator.default ∧
        resolver.iterator.opEq it2 resolver.iterator.default = true ∧
        it2.is_end_ = true) ∧
      (ec = 0 → it2 = (resolver.iterator.fromResults st results).2) := by
  constructor
  · unfold async_resolve_complete
    split <;> rfl
  · intro q it2 hq
    unfold async_resolve_complete at hq
    by_cases hec : ec = 0
    · rw [if_neg (by simp [hec])] at hq
      replace hq :
          [(ec, (resolver.iterator.fromResults st results).2)] =
            [(q, it2)] := hq
      simp only [List.cons.injEq, Prod.mk.injEq, and_true] at hq
      exact ⟨hq.1.symm, fun hne => absurd hec hne, fun _ => hq.2.symm⟩
    · rw [if_pos hec] at hq
      replace hq : [(ec, resolver.iterator.default)] = [(q, it2)] := hq
      simp only [List.cons.injEq, Prod.mk.injEq, and_true] at hq
      refine ⟨hq.1.symm, fun _ => ?_, fun h0 => absurd h0 hec⟩
      refine ⟨hq.2.symm, ?_, ?_⟩
      · rw [← hq.2]
        rfl
      · rw [← hq.2]
        rfl

theorem c4_async_resolve_handler_witness :
    (async_resolve_complete [] 2 [3]).2.length = 1 ∧
    ((2 : error_code) = 2 ∧
     (resolver.iterator.default = resolver.iterator.default ∧
      resolver.iterator.opEq resolver.iterator.default
        resolver.iterator.default = true ∧
      resolver.iterator.default.is_end_ = true)) :=
  ⟨(c4_async_resolve_handler [] 2 [3]).1,
   ((c4_async_resolve_handler [] 2 [3]).2 2 resolver.iterator.default rfl).1,
   ((c4_async_resolve_handler [] 2 [3]).2 2 resolver.iterator.default
      rfl).2.1 (by decide)⟩

/-- C10: operator!= is exactly the logical negation of operator==, so the
two are mutually exclusive and exhaustive. -/
theorem c10_ne_negation (a b : resolver.iterator) :
    resolver.iterator.opNe a b = !(resolver.iterator.opEq a b) ∧
    ((resolver.iterator.opEq a b = true ∧
      resolver.iterator.opNe a b = false) ∨
     (resolver.iterator.opEq a b = false ∧
      resolver.iterator.opNe a b = true)) := by
  refine ⟨rfl, ?_⟩
  cases he : resolver.iterator.opEq a b
  · exact Or.inr ⟨rfl, by simp [resolver.iterator.opNe, he]⟩
  · exact Or.inl ⟨rfl, by simp [resolver.iterator.opNe, he]⟩

end Websocketpp
